import Mathlib

/-!
# Verification of the shared-expense backend's ledger logic

Shallow embedding of the balance/debt computation engine of the
`googleSingin` shared-expense backend, together with theorems settling the
frozen specification claims.

Modelling conventions:
* Monetary values are exact rationals (`ℚ`).  The JavaScript source computes
  with IEEE doubles; every theorem and counterexample below is evaluated at
  inputs where double arithmetic and exact decimal arithmetic agree
  (small decimal fractions with at most two fractional digits, and the
  2-decimal rounding of `100/3`), so the rational model is faithful at
  every input any theorem touches.
* `Number.prototype.toFixed(2)` followed by `parseFloat` is modelled by
  `round2` (round half away handled by `round`, which agrees with `toFixed`
  on all inputs used here).
* MongoDB documents become Lean structures; an object used as a map keyed
  by user id becomes an association list in insertion order (JavaScript
  `for…in` iterates string keys in insertion order, and the 24-hex-digit
  ObjectId strings are never array indices, so insertion order is the
  faithful iteration order).
* Route handlers become functions returning `Except` for the error paths;
  the request/response plumbing, logging and persistence are out of scope,
  exactly as the spec declares.
-/

/-- One participant's share of an expense
(`splitAmong` entries in `models/Expense.js` and the dashboard routes):
a user reference, an owed amount and a settled flag. -/
structure Split where
  user : String
  amount : ℚ
  settled : Bool
deriving DecidableEq, Repr

/-- An expense record (`models/Expense.js`, as used by the dashboard
routes: `splitAmong`, `paidBy`, `category`, `date`, `group`). The date is
an integer timestamp. -/
structure Expense where
  description : String
  amount : ℚ
  paidBy : String
  group : String
  category : String
  date : Int
  splitAmong : List Split
deriving DecidableEq, Repr

/-- Rounding to two decimal places:
`parseFloat(x.toFixed(2))` from the equal-split computation
(round half away from zero at the second decimal; stated with `Rat.floor`
so that it evaluates by kernel reduction). -/
def round2 (q : ℚ) : ℚ := ((q * 100 + 1 / 2).floor : ℚ) / 100

/-- The per-member amount of an equal split
(`parseFloat((amount / membersToSplit.length).toFixed(2))`,
routes/dashboard.js `POST /groups/:groupId/expenses` and
routes/dashboard/expenses.js `POST /group/:groupId`). -/
def equalSplitAmount (amount : ℚ) (memberCount : ℕ) : ℚ :=
  round2 (amount / memberCount)

/-- Equal-split details: every member of `membersToSplit` receives the same
rounded share; the payer's entry is created settled. -/
def computeEqualSplitDetails (amount : ℚ) (paidBy : String)
    (membersToSplit : List String) : List Split :=
  membersToSplit.map (fun m =>
    ⟨m, equalSplitAmount amount membersToSplit.length, m = paidBy⟩)

/-- Unequal-split details (routes/dashboard.js lines 499–505):
`splitAmong.map(memberId => ({user: memberId, amount: splitAmounts[memberId] || 0,
settled: memberId === paidBy}))` — a member missing from `splitAmounts`
defaults to `0`; no validation of the amounts is performed. -/
def computeUnequalSplitDetails (splitAmong : List String)
    (splitAmounts : List (String × ℚ)) (paidBy : String) : List Split :=
  splitAmong.map (fun m => ⟨m, (splitAmounts.lookup m).getD 0, m = paidBy⟩)

/-- Validation/creation logic of `POST /groups/:groupId/expenses`
(routes/dashboard.js lines 436–529), with the persistence and
authorization plumbing factored out: the description/amount check, the
empty-member check, then split computation by `splitType` and
unconditional creation of the expense record.  No check relates the split
amounts to the expense amount. -/
def addGroupExpense (splitType : String) (description : String) (amount : ℚ)
    (membersToSplit : List String) (splitAmong : List String)
    (splitAmounts : Option (List (String × ℚ))) (paidBy : String)
    (groupId : String) (category : String) (date : Int) :
    Except String Expense :=
  if description = "" ∨ amount ≤ 0 then
    .error "Description and amount (greater than 0) are required"
  else if membersToSplit = [] then
    .error "No valid members to split expense among"
  else
    let splitDetails :=
      if splitType = "unequal" ∧ splitAmounts.isSome then
        computeUnequalSplitDetails splitAmong (splitAmounts.getD []) paidBy
      else
        computeEqualSplitDetails amount paidBy membersToSplit
    .ok ⟨description, amount, paidBy, groupId, category, date, splitDetails⟩

/-- Sum of the split amounts of a list of splits. -/
def splitSum (splits : List Split) : ℚ := (splits.map (·.amount)).sum

/-- Lemma: `Rat.floor` agrees with the floor of the archimedean order structure;
lets `norm_num` evaluate `round2` on literals. -/
theorem ratfloor_eq (q : ℚ) : q.floor = ⌊q⌋ := by
  rw [Rat.floor_def', Rat.floor_def]

/-- C1: the code gives every participant the same rounded share `33.33`
for an equal split of `100` among three, so the splits sum to `99.99`,
one cent short of the expense amount. -/
theorem c1_equal_split_drops_residual_cent :
    splitSum (computeEqualSplitDetails 100 "a" ["a", "b", "c"]) = 9999 / 100 ∧
    ((9999 : ℚ) / 100 ≠ 100) ∧
    addGroupExpense "equal" "dinner" 100 ["a", "b", "c"] [] none "a" "g" "Food" 0 =
      .ok ⟨"dinner", 100, "a", "g", "Food", 0,
        [⟨"a", 3333 / 100, true⟩, ⟨"b", 3333 / 100, false⟩, ⟨"c", 3333 / 100, false⟩]⟩ := by
  refine ⟨?_, by norm_num, ?_⟩
  · simp [splitSum, computeEqualSplitDetails, equalSplitAmount, round2, ratfloor_eq]
    norm_num
  · simp [addGroupExpense, computeEqualSplitDetails, equalSplitAmount, round2, ratfloor_eq]
    norm_num

/-- C7: the unequal branch performs no validation: with `amount = 100`,
participants `a, b` and explicit amounts `{a: 10}` (sum `10 ≠ 100`, no
entry for `b`), the expense is created anyway, `b` defaulting to `0`. -/
theorem c7_unequal_no_validation_counterexample :
    addGroupExpense "unequal" "dinner" 100 ["a", "b"] ["a", "b"]
        (some [("a", 10)]) "a" "g" "Food" 0 =
      .ok ⟨"dinner", 100, "a", "g", "Food", 0,
        [⟨"a", 10, true⟩, ⟨"b", 0, false⟩]⟩ ∧
    splitSum [⟨"a", 10, true⟩, ⟨"b", 0, false⟩] = 10 ∧ ((10 : ℚ) ≠ 100) := by
  refine ⟨?_, by simp [splitSum], by norm_num⟩
  simp [addGroupExpense, computeUnequalSplitDetails, List.lookup]

/-- C7 (amended): the unequal branch of the expense route accepts any
explicit-amount map: whenever the basic description/amount/member checks
pass, the expense is created with the provided per-member amounts, a
member missing from the map silently defaulting to `0`; the sum of the
explicit amounts is never compared to the expense amount and no
`ValidationError` is raised for a mismatch. -/
theorem c7_unequal_accepts_any_amounts (description : String) (amount : ℚ)
    (membersToSplit splitAmong : List String) (splitAmounts : List (String × ℚ))
    (paidBy groupId category : String) (date : Int)
    (hd : description ≠ "") (ha : 0 < amount) (hm : membersToSplit ≠ []) :
    (∃ e, addGroupExpense "unequal" description amount membersToSplit splitAmong
        (some splitAmounts) paidBy groupId category date = .ok e ∧
      e.splitAmong = computeUnequalSplitDetails splitAmong splitAmounts paidBy) ∧
    (∀ m ∈ splitAmong, splitAmounts.lookup m = none →
      (⟨m, 0, decide (m = paidBy)⟩ : Split) ∈
        computeUnequalSplitDetails splitAmong splitAmounts paidBy) := by
  constructor
  · refine ⟨⟨description, amount, paidBy, groupId, category, date,
      computeUnequalSplitDetails splitAmong splitAmounts paidBy⟩, ?_, rfl⟩
    simp [addGroupExpense, hd, hm, not_le.mpr ha]
  · intro m hmem hnone
    simp only [computeUnequalSplitDetails, List.mem_map]
    exact ⟨m, hmem, by simp [hnone]⟩

/-- Witness for `c7_unequal_accepts_any_amounts` at a concrete input. -/
theorem c7_unequal_accepts_any_amounts_witness :
    ∃ e, addGroupExpense "unequal" "x" 1 ["a"] ["a", "b"] (some []) "a" "g" "c" 0 =
      .ok e ∧ e.splitAmong = computeUnequalSplitDetails ["a", "b"] [] "a" :=
  (c7_unequal_accepts_any_amounts "x" 1 ["a"] ["a", "b"] [] "a" "g" "c" 0
    (by decide) (by norm_num) (by decide)).1

/-- A member's derived balance record (routes/dashboard.js lines 859–869):
paid, owed, net and pendingPayments, all starting at `0`. -/
structure Balance where
  paid : ℚ
  owed : ℚ
  net : ℚ
  pendingPayments : ℚ
deriving DecidableEq, Repr

/-- The all-zero balance record every member is initialized with. -/
def Balance.zero : Balance := ⟨0, 0, 0, 0⟩

/-- The `balances` object keyed by user id, in insertion order. -/
abbrev Balances := List (String × Balance)

/-- Point update of one user's balance record (`balances[uid] = …`);
a key not present is left untouched, mirroring the guarded updates. -/
def updateBal (uid : String) (f : Balance → Balance) (b : Balances) : Balances :=
  b.map (fun p => if p.1 = uid then (p.1, f p.2) else p)

/-- The `balances` initialization: one zero record per prepared member id
(admin first, then active members). -/
def initBalances (members : List String) : Balances :=
  members.map (fun m => (m, Balance.zero))

/-- The `totalUnsettledAmount` of an expense
(routes/dashboard.js lines 898–903): the sum of its unsettled splits. -/
def unsettledTotal (e : Expense) : ℚ :=
  splitSum (e.splitAmong.filter (fun s => !s.settled))

/-- Body of the split loop of `GET /groups/:groupId/balances`
(routes/dashboard.js lines 912–921): an unsettled split of a present user
adds to that user's owed and pendingPayments and subtracts from net. -/
def applySplitTo (s : Split) (acc : Balances) : Balances :=
  if ¬s.settled ∧ (acc.lookup s.user).isSome then
    updateBal s.user (fun bal =>
      { bal with owed := bal.owed + s.amount, net := bal.net - s.amount,
                 pendingPayments := bal.pendingPayments + s.amount }) acc
  else acc

/-- One iteration of the expense loop of `GET /groups/:groupId/balances`
(routes/dashboard.js lines 888–922): Settlement-category expenses are
skipped; otherwise the payer's paid/net grow by the expense's unsettled
total (when positive and the payer is present), then every unsettled
split of a present user is applied. -/
def processExpense (b : Balances) (e : Expense) : Balances :=
  if e.category = "Settlement" then b
  else
    e.splitAmong.foldl (fun acc s => applySplitTo s acc)
      (if 0 < unsettledTotal e ∧ (b.lookup e.paidBy).isSome then
        updateBal e.paidBy (fun bal =>
          { bal with paid := bal.paid + unsettledTotal e,
                     net := bal.net + unsettledTotal e }) b
      else b)

/-- The balance aggregator of `GET /groups/:groupId/balances`
(routes/dashboard.js lines 856–922). -/
def computeGroupBalances (members : List String) (expenses : List Expense) :
    Balances :=
  expenses.foldl processExpense (initBalances members)

/-- Body of the split loop of the dashboard variant
(routes/dashboard/balances.js, `GET /group/:groupId` lines 85–95): every
split of a present user adds to owed and subtracts from net, settled or
not; only pendingPayments is restricted to unsettled splits. -/
def applySplitToVariant (s : Split) (acc : Balances) : Balances :=
  if (acc.lookup s.user).isSome then
    updateBal s.user (fun bal =>
      { bal with owed := bal.owed + s.amount, net := bal.net - s.amount,
                 pendingPayments :=
                   bal.pendingPayments + (if s.settled then 0 else s.amount) }) acc
  else acc

/-- One iteration of the expense loop of the dashboard variant
(routes/dashboard/balances.js lines 77–96): no Settlement exclusion; the
payer's paid/net grow by the full expense amount. -/
def processExpenseVariant (b : Balances) (e : Expense) : Balances :=
  e.splitAmong.foldl (fun acc s => applySplitToVariant s acc)
    (if (b.lookup e.paidBy).isSome then
      updateBal e.paidBy (fun bal =>
        { bal with paid := bal.paid + e.amount, net := bal.net + e.amount }) b
    else b)

/-- The balance aggregator of the dashboard variant
(routes/dashboard/balances.js `GET /group/:groupId`). -/
def computeGroupBalancesVariant (members : List String)
    (expenses : List Expense) : Balances :=
  expenses.foldl processExpenseVariant (initBalances members)

/-- Sum of the net fields of a balances object. -/
def netSum (b : Balances) : ℚ := (b.map (fun p => p.2.net)).sum

/-- Sum of the amounts of user `u`'s unsettled splits in a split list. -/
def userUnsettledSum (u : String) (splits : List Split) : ℚ :=
  splitSum (splits.filter (fun s => !s.settled && s.user == u))

/-- Sum of the amounts of all of user `u`'s splits in a split list. -/
def userSplitSum (u : String) (splits : List Split) : ℚ :=
  splitSum (splits.filter (fun s => s.user == u))

/-- The combined per-expense effect on one user's owed/net/pendingPayments. -/
def addOwedDelta (towed tpend : ℚ) (bal : Balance) : Balance :=
  ⟨bal.paid, bal.owed + towed, bal.net - towed, bal.pendingPayments + tpend⟩

theorem lookup_cons_eq (v k : String) (bal : Balance) (rest : Balances)
    (h : v = k) : List.lookup v ((k, bal) :: rest) = some bal := by
  subst h
  simp [List.lookup]

theorem lookup_cons_ne (v k : String) (bal : Balance) (rest : Balances)
    (h : v ≠ k) : List.lookup v ((k, bal) :: rest) = List.lookup v rest := by
  simp [List.lookup, beq_eq_false_iff_ne.mpr h]

theorem lookup_updateBal (uid v : String) (f : Balance → Balance)
    (b : Balances) :
    (updateBal uid f b).lookup v =
      if v = uid then (b.lookup v).map f else b.lookup v := by
  induction b with
  | nil => simp [updateBal]
  | cons p rest ih =>
    obtain ⟨k, bal⟩ := p
    have hmap : updateBal uid f ((k, bal) :: rest) =
        (if k = uid then (k, f bal) else (k, bal)) :: updateBal uid f rest := rfl
    rw [hmap]
    by_cases hk : k = uid
    · rw [if_pos hk]
      by_cases hv : v = k
      · rw [lookup_cons_eq v k (f bal) _ hv, lookup_cons_eq v k bal rest hv,
          if_pos (hv.trans hk)]
        rfl
      · rw [lookup_cons_ne v k (f bal) _ hv, lookup_cons_ne v k bal rest hv, ih]
    · rw [if_neg hk]
      by_cases hv : v = k
      · have hvu : ¬v = uid := by rw [hv]; exact hk
        rw [lookup_cons_eq v k bal _ hv, lookup_cons_eq v k bal rest hv,
          if_neg hvu]
      · rw [lookup_cons_ne v k bal _ hv, lookup_cons_ne v k bal rest hv, ih]

theorem userUnsettledSum_nil (u : String) : userUnsettledSum u [] = 0 := rfl

theorem userUnsettledSum_cons (u : String) (s : Split) (rest : List Split) :
    userUnsettledSum u (s :: rest) =
      (if s.settled = false ∧ s.user = u then s.amount else 0) +
        userUnsettledSum u rest := by
  simp only [userUnsettledSum, splitSum, List.filter_cons]
  cases h1 : s.settled <;> by_cases h2 : s.user = u <;> simp [h1, h2]

theorem userSplitSum_nil (u : String) : userSplitSum u [] = 0 := rfl

theorem userSplitSum_cons (u : String) (s : Split) (rest : List Split) :
    userSplitSum u (s :: rest) =
      (if s.user = u then s.amount else 0) + userSplitSum u rest := by
  simp only [userSplitSum, splitSum, List.filter_cons]
  by_cases h2 : s.user = u <;> simp [h2]

theorem splitFold_lookup (splits : List Split) (acc : Balances) (u : String) :
    (splits.foldl (fun a s => applySplitTo s a) acc).lookup u =
      (acc.lookup u).map
        (addOwedDelta (userUnsettledSum u splits) (userUnsettledSum u splits)) := by
  induction splits generalizing acc with
  | nil =>
    cases h : acc.lookup u <;> simp [userUnsettledSum_nil, addOwedDelta, h]
  | cons s rest ih =>
    rw [List.foldl_cons, ih, userUnsettledSum_cons]
    by_cases hsu : s.user = u
    · cases hset : s.settled with
      | true =>
        have hid : applySplitTo s acc = acc := by
          unfold applySplitTo
          rw [if_neg (by simp [hset])]
        rw [hid]
        simp [hset]
      | false =>
        cases hl : acc.lookup u with
        | none =>
          have hid : applySplitTo s acc = acc := by
            unfold applySplitTo
            rw [if_neg (by simp [hsu, hl])]
          rw [hid, hl]
          simp
        | some bal =>
          have hup : applySplitTo s acc =
              updateBal s.user (fun b0 =>
                { b0 with owed := b0.owed + s.amount, net := b0.net - s.amount,
                          pendingPayments := b0.pendingPayments + s.amount })
                acc := by
            unfold applySplitTo
            rw [if_pos ⟨by simp [hset], by simp [hsu, hl]⟩]
          rw [hup, lookup_updateBal, if_pos hsu.symm, hl,
            if_pos ⟨rfl, hsu⟩]
          simp only [Option.map_some', Option.some.injEq, addOwedDelta,
            Balance.mk.injEq]
          refine ⟨trivial, by ring, by ring, by ring⟩
    · have hlk : (applySplitTo s acc).lookup u = acc.lookup u := by
        unfold applySplitTo
        split
        · rw [lookup_updateBal, if_neg (fun h => hsu h.symm)]
        · rfl
      rw [hlk, if_neg (fun h => hsu h.2)]
      simp

theorem splitFoldVariant_lookup (splits : List Split) (acc : Balances)
    (u : String) :
    (splits.foldl (fun a s => applySplitToVariant s a) acc).lookup u =
      (acc.lookup u).map
        (addOwedDelta (userSplitSum u splits) (userUnsettledSum u splits)) := by
  induction splits generalizing acc with
  | nil =>
    cases h : acc.lookup u <;>
      simp [userUnsettledSum_nil, userSplitSum_nil, addOwedDelta, h]
  | cons s rest ih =>
    rw [List.foldl_cons, ih, userUnsettledSum_cons, userSplitSum_cons]
    by_cases hsu : s.user = u
    · cases hl : acc.lookup u with
      | none =>
        have hid : applySplitToVariant s acc = acc := by
          unfold applySplitToVariant
          rw [if_neg (by simp [hsu, hl])]
        rw [hid, hl]
        simp
      | some bal =>
        have hup : applySplitToVariant s acc =
            updateBal s.user (fun b0 =>
              { b0 with owed := b0.owed + s.amount, net := b0.net - s.amount,
                        pendingPayments := b0.pendingPayments +
                          (if s.settled then 0 else s.amount) }) acc := by
          unfold applySplitToVariant
          rw [if_pos (by simp [hsu, hl])]
        rw [hup, lookup_updateBal, if_pos hsu.symm, hl, if_pos hsu]
        simp only [Option.map_some', Option.some.injEq, addOwedDelta,
          Balance.mk.injEq]
        refine ⟨trivial, by ring, by ring, ?_⟩
        cases hset : s.settled <;> (simp [hset, hsu]; try ring)
    · have hlk : (applySplitToVariant s acc).lookup u = acc.lookup u := by
        unfold applySplitToVariant
        split
        · rw [lookup_updateBal, if_neg (fun h => hsu h.symm)]
        · rfl
      rw [hlk, if_neg hsu, if_neg (fun h => hsu h.2)]
      simp

theorem processExpense_lookup (b : Balances) (e : Expense) (u : String)
    (bal : Balance) (hcat : e.category ≠ "Settlement")
    (hnn : 0 ≤ unsettledTotal e) (hb : b.lookup u = some bal) :
    (processExpense b e).lookup u = some
      ⟨bal.paid + (if u = e.paidBy then unsettledTotal e else 0),
       bal.owed + userUnsettledSum u e.splitAmong,
       bal.net + (if u = e.paidBy then unsettledTotal e else 0)
         - userUnsettledSum u e.splitAmong,
       bal.pendingPayments + userUnsettledSum u e.splitAmong⟩ := by
  unfold processExpense
  rw [if_neg hcat, splitFold_lookup]
  by_cases h0 : 0 < unsettledTotal e ∧ (b.lookup e.paidBy).isSome
  · rw [if_pos h0, lookup_updateBal]
    by_cases hp : u = e.paidBy
    · rw [if_pos hp, hb]
      simp only [Option.map_some', addOwedDelta, Option.some.injEq,
        Balance.mk.injEq, if_pos hp]
    · rw [if_neg hp, hb]
      simp only [Option.map_some', addOwedDelta, Option.some.injEq,
        Balance.mk.injEq, if_neg hp]
      refine ⟨by ring, trivial, by ring, trivial⟩
  · rw [if_neg h0, hb]
    by_cases hp : u = e.paidBy
    · have hts : ¬ 0 < unsettledTotal e := by
        intro hlt
        refine h0 ⟨hlt, ?_⟩
        rw [← hp, hb]
        rfl
      have ht0 : unsettledTotal e = 0 := le_antisymm (not_lt.1 hts) hnn
      simp only [Option.map_some', addOwedDelta, Option.some.injEq,
        Balance.mk.injEq, if_pos hp, ht0]
      refine ⟨by ring, trivial, by ring, trivial⟩
    · simp only [Option.map_some', addOwedDelta, Option.some.injEq,
        Balance.mk.injEq, if_neg hp]
      refine ⟨by ring, trivial, by ring, trivial⟩

theorem processExpenseVariant_lookup (b : Balances) (e : Expense) (u : String)
    (bal : Balance) (hb : b.lookup u = some bal) :
    (processExpenseVariant b e).lookup u = some
      ⟨bal.paid + (if u = e.paidBy then e.amount else 0),
       bal.owed + userSplitSum u e.splitAmong,
       bal.net + (if u = e.paidBy then e.amount else 0)
         - userSplitSum u e.splitAmong,
       bal.pendingPayments + userUnsettledSum u e.splitAmong⟩ := by
  unfold processExpenseVariant
  rw [splitFoldVariant_lookup]
  by_cases hpp : (b.lookup e.paidBy).isSome
  · rw [if_pos hpp, lookup_updateBal]
    by_cases hp : u = e.paidBy
    · rw [if_pos hp, hb]
      simp only [Option.map_some', addOwedDelta, Option.some.injEq,
        Balance.mk.injEq, if_pos hp]
    · rw [if_neg hp, hb]
      simp only [Option.map_some', addOwedDelta, Option.some.injEq,
        Balance.mk.injEq, if_neg hp]
      refine ⟨by ring, trivial, by ring, trivial⟩
  · rw [if_neg hpp, hb]
    by_cases hp : u = e.paidBy
    · exact absurd (by rw [← hp, hb]; rfl) hpp
    · simp only [Option.map_some', addOwedDelta, Option.some.injEq,
        Balance.mk.injEq, if_neg hp]
      refine ⟨by ring, trivial, by ring, trivial⟩

/-- C2 (amended): the primary balance aggregator
(`GET /groups/:groupId/balances`) excludes `Settlement` expenses entirely
and, for every other expense, lets only unsettled splits contribute: each
unsettled split adds its amount to that user's owed and pendingPayments
(and subtracts it from net), while the payer's paid and net grow by the
sum of the expense's unsettled split amounts, not the full amount.  The
dashboard variant (`GET /group/:groupId` in routes/dashboard/balances.js)
does NOT exclude `Settlement` expenses and adds the full expense amount
to the payer's paid/net and every split amount — settled or not — to
owed/net, restricting only pendingPayments to unsettled splits. -/
theorem c2_balance_aggregation_characterized :
    (∀ (b : Balances) (e : Expense), e.category = "Settlement" →
      processExpense b e = b) ∧
    (∀ (b : Balances) (e : Expense) (u : String) (bal : Balance),
      e.category ≠ "Settlement" → 0 ≤ unsettledTotal e →
      b.lookup u = some bal →
      (processExpense b e).lookup u = some
        ⟨bal.paid + (if u = e.paidBy then unsettledTotal e else 0),
         bal.owed + userUnsettledSum u e.splitAmong,
         bal.net + (if u = e.paidBy then unsettledTotal e else 0)
           - userUnsettledSum u e.splitAmong,
         bal.pendingPayments + userUnsettledSum u e.splitAmong⟩) ∧
    (∀ (b : Balances) (e : Expense) (u : String) (bal : Balance),
      b.lookup u = some bal →
      (processExpenseVariant b e).lookup u = some
        ⟨bal.paid + (if u = e.paidBy then e.amount else 0),
         bal.owed + userSplitSum u e.splitAmong,
         bal.net + (if u = e.paidBy then e.amount else 0)
           - userSplitSum u e.splitAmong,
         bal.pendingPayments + userUnsettledSum u e.splitAmong⟩) :=
  ⟨fun b e h => by unfold processExpense; rw [if_pos h],
   fun b e u bal hcat hnn hb => processExpense_lookup b e u bal hcat hnn hb,
   fun b e u bal hb => processExpenseVariant_lookup b e u bal hb⟩

/-- Witness for `c2_balance_aggregation_characterized` at a concrete
input: one unsettled 10-split expense paid by `a`. -/
theorem c2_balance_aggregation_characterized_witness :
    (processExpense [("a", Balance.zero)]
        ⟨"w", 10, "a", "g", "Food", 0, [⟨"b", 10, false⟩]⟩).lookup "a" =
      some ⟨10, 0, 10, 0⟩ := by
  have h := c2_balance_aggregation_characterized.2.1 [("a", Balance.zero)]
    ⟨"w", 10, "a", "g", "Food", 0, [⟨"b", 10, false⟩]⟩ "a" Balance.zero
    (by decide) (by norm_num [unsettledTotal, splitSum]) rfl
  rw [h]
  simp [unsettledTotal, splitSum, userUnsettledSum, Balance.zero]

/-- C2: the dashboard variant aggregator counts a `Settlement` expense in
the payer's paid/net (and the settled-or-not splits in owed), refuting
the claim that the balance aggregation excludes `Settlement` expenses
from paid/owed accumulation: the lone expense is a Settlement, yet the
payer `a` ends with paid 50 and `b` with owed 50. -/
theorem c2_variant_counts_settlement_counterexample :
    computeGroupBalancesVariant ["a", "b"]
        [⟨"settle", 50, "a", "g", "Settlement", 0, [⟨"b", 50, false⟩]⟩] =
      [("a", ⟨50, 0, 50, 0⟩), ("b", ⟨0, 50, -50, 50⟩)] ∧
    ((50 : ℚ) ≠ 0) := by
  constructor
  · simp [computeGroupBalancesVariant, processExpenseVariant,
      applySplitToVariant, initBalances, updateBal, Balance.zero, List.lookup]
  · norm_num

theorem applySplitTo_of_settled (s : Split) (acc : Balances)
    (h : s.settled = true) : applySplitTo s acc = acc := by
  unfold applySplitTo
  rw [if_neg (by simp [h])]

theorem splitFold_of_settled (splits : List Split) (acc : Balances)
    (h : ∀ s ∈ splits, s.settled = true) :
    splits.foldl (fun a s => applySplitTo s a) acc = acc := by
  induction splits generalizing acc with
  | nil => rfl
  | cons s rest ih =>
    rw [List.foldl_cons, applySplitTo_of_settled s acc (h s (by simp)),
      ih acc (fun s' hs' => h s' (by simp [hs']))]

theorem unsettledTotal_of_settled (e : Expense)
    (h : ∀ s ∈ e.splitAmong, s.settled = true) : unsettledTotal e = 0 := by
  unfold unsettledTotal
  have hf : e.splitAmong.filter (fun s => !s.settled) = [] := by
    rw [List.filter_eq_nil_iff]
    intro s hs
    simp [h s hs]
  rw [hf]
  rfl

theorem processExpense_of_settled (b : Balances) (e : Expense)
    (h : ∀ s ∈ e.splitAmong, s.settled = true) : processExpense b e = b := by
  unfold processExpense
  by_cases hcat : e.category = "Settlement"
  · rw [if_pos hcat]
  · rw [if_neg hcat,
      if_neg (by simp [unsettledTotal_of_settled e h]),
      splitFold_of_settled e.splitAmong b h]

theorem netSum_initBalances (ms : List String) :
    netSum (initBalances ms) = 0 := by
  induction ms with
  | nil => rfl
  | cons m rest ih => simpa [netSum, initBalances, Balance.zero] using ih

/-- C5: conservation of money for a fully settled ledger — when every
split of every expense is settled, the balance aggregator leaves every
member's record at zero, so the members' net balances sum to exactly `0`. -/
theorem c5_conservation_when_all_settled (members : List String)
    (expenses : List Expense)
    (h : ∀ e ∈ expenses, ∀ s ∈ e.splitAmong, s.settled = true) :
    netSum (computeGroupBalances members expenses) = 0 := by
  have hfold : ∀ (l : List Expense), (∀ e ∈ l, ∀ s ∈ e.splitAmong, s.settled = true) →
      ∀ (b : Balances), l.foldl processExpense b = b := by
    intro l
    induction l with
    | nil => intro _ b; rfl
    | cons e rest ih =>
      intro hl b
      rw [List.foldl_cons, processExpense_of_settled b e (hl e (by simp)),
        ih (fun e' he' => hl e' (by simp [he'])) b]
  unfold computeGroupBalances
  rw [hfold expenses h (initBalances members), netSum_initBalances]

/-- Witness for `c5_conservation_when_all_settled` on a concrete fully
settled two-member ledger. -/
theorem c5_conservation_when_all_settled_witness :
    netSum (computeGroupBalances ["a", "b"]
      [⟨"d", 10, "a", "g", "Food", 0, [⟨"a", 5, true⟩, ⟨"b", 5, true⟩]⟩]) = 0 := by
  refine c5_conservation_when_all_settled ["a", "b"] _ ?_
  intro e he s hs
  simp at he
  subst he
  simp at hs
  rcases hs with h | h <;> simp [h]

/-- One cell of the pairwise debt matrix of `updateSimplifiedDebts`
(routes/groups.js lines 304–332), in the row-major insertion order of the
JavaScript object. -/
structure DebtEntry where
  debtor : String
  creditor : String
  amount : ℚ
deriving DecidableEq, Repr

/-- A settlement instruction `{from, to, amount}` pushed by the greedy
loop of `updateSimplifiedDebts` (routes/groups.js lines 359–363). -/
structure Instr where
  source : String
  target : String
  amount : ℚ
deriving DecidableEq, Repr

/-- The empty debt matrix: one zero cell for every ordered pair of
distinct members, rows and columns in member order
(routes/groups.js lines 304–312). -/
def initMatrix (members : List String) : List DebtEntry :=
  members.flatMap (fun m1 =>
    (members.filter (fun m2 => m2 ≠ m1)).map (fun m2 => ⟨m1, m2, 0⟩))

/-- The update `debtMatrix[debtor][creditor] += amt` on the cell list. -/
def addDebt (debtor creditor : String) (amt : ℚ) (m : List DebtEntry) :
    List DebtEntry :=
  m.map (fun e =>
    if e.debtor = debtor ∧ e.creditor = creditor then
      { e with amount := e.amount + amt }
    else e)

/-- Filling the debt matrix from the group's signed balance list
(routes/groups.js lines 315–332): every negative balance is distributed
over the positive balances in proportion to their share of the total
credit. -/
def fillMatrix (balances : List (String × ℚ)) (m : List DebtEntry) :
    List DebtEntry :=
  balances.foldl (fun acc bal =>
    if bal.2 < 0 then
      (balances.filter (fun b => 0 < b.2)).foldl
        (fun acc2 c =>
          addDebt bal.1 c.1
            (|bal.2| * (c.2 / ((balances.filter (fun b => 0 < b.2)).map (·.2)).sum))
            acc2)
        acc
    else acc) m

/-- The debt matrix `updateSimplifiedDebts` builds for a group. -/
def buildDebtMatrix (members : List String) (balances : List (String × ℚ)) :
    List DebtEntry :=
  fillMatrix balances (initMatrix members)

/-- The max-debt scan of the greedy loop (routes/groups.js lines 343–355):
starting from `maxDebt = 0` and no pair, a cell strictly above the
running maximum replaces it, so the first cell attaining the maximum in
matrix order wins. -/
def findMaxAux : ℚ → Option (String × String) → List DebtEntry →
    ℚ × Option (String × String)
  | best, bk, [] => (best, bk)
  | best, bk, e :: rest =>
    if best < e.amount then findMaxAux e.amount (some (e.debtor, e.creditor)) rest
    else findMaxAux best bk rest

/-- The max-debt scan over a whole matrix. -/
def findMax (m : List DebtEntry) : ℚ × Option (String × String) :=
  findMaxAux 0 none m

/-- The reset `debtMatrix[maxDebtor][maxCreditor] = 0`. -/
def zeroKey (k : String × String) (m : List DebtEntry) : List DebtEntry :=
  m.map (fun e =>
    if e.debtor = k.1 ∧ e.creditor = k.2 then { e with amount := 0 } else e)

/-- One iteration of the `while (changes)` loop
(routes/groups.js lines 339–367): find the largest debt; if it exceeds
`0.01`, emit an instruction for that pair and zero the cell, else stop. -/
def greedyStep (m : List DebtEntry) : Option (Instr × List DebtEntry) :=
  match findMax m with
  | (best, some k) =>
    if 1 / 100 < best then some (⟨k.1, k.2, best⟩, zeroKey k m) else none
  | (_, none) => none

/-- The greedy loop, iterated with explicit fuel; the source's `while`
loop corresponds to running with enough fuel, which
`greedy_loop_terminates` below shows `countAbove m` always is. -/
def greedyRun : ℕ → List DebtEntry → List Instr × List DebtEntry
  | 0, m => ([], m)
  | fuel + 1, m =>
    match greedyStep m with
    | none => ([], m)
    | some (i, m1) =>
      let r := greedyRun fuel m1
      (i :: r.1, r.2)

/-- Number of matrix cells strictly above the `0.01` threshold. -/
def countAbove (m : List DebtEntry) : ℕ :=
  m.countP (fun e => decide (1 / 100 < e.amount))

/-- The full `updateSimplifiedDebts` computation
(routes/groups.js lines 295–371): build the matrix from members and
balances, then run the greedy loop to completion; returns the cached
`simplifiedDebts` list together with the final matrix state. -/
def updateSimplifiedDebts (members : List String)
    (balances : List (String × ℚ)) : List Instr × List DebtEntry :=
  greedyRun (countAbove (buildDebtMatrix members balances))
    (buildDebtMatrix members balances)

theorem findMaxAux_le_start (m : List DebtEntry) :
    ∀ (best : ℚ) (bk : Option (String × String)),
      best ≤ (findMaxAux best bk m).1 := by
  induction m with
  | nil => intro best bk; exact le_refl best
  | cons e rest ih =>
    intro best bk
    unfold findMaxAux
    by_cases h : best < e.amount
    · rw [if_pos h]
      exact le_of_lt (lt_of_lt_of_le h (ih e.amount _))
    · rw [if_neg h]
      exact ih best bk

theorem findMaxAux_ge (m : List DebtEntry) :
    ∀ (best : ℚ) (bk : Option (String × String)) (e : DebtEntry), e ∈ m →
      e.amount ≤ (findMaxAux best bk m).1 := by
  induction m with
  | nil => intro _ _ _ h; cases h
  | cons x rest ih =>
    intro best bk e he
    unfold findMaxAux
    rcases List.mem_cons.1 he with rfl | hrest
    · by_cases h : best < e.amount
      · rw [if_pos h]
        exact findMaxAux_le_start rest e.amount _
      · rw [if_neg h]
        exact le_trans (not_lt.1 h) (findMaxAux_le_start rest best bk)
    · by_cases h : best < x.amount
      · rw [if_pos h]
        exact ih x.amount _ e hrest
      · rw [if_neg h]
        exact ih best bk e hrest

theorem findMaxAux_some_isSome (m : List DebtEntry) :
    ∀ (best : ℚ) (k0 : String × String),
      ((findMaxAux best (some k0) m).2).isSome := by
  induction m with
  | nil => intro _ _; rfl
  | cons e rest ih =>
    intro best k0
    unfold findMaxAux
    by_cases h : best < e.amount
    · rw [if_pos h]; exact ih e.amount _
    · rw [if_neg h]; exact ih best k0

theorem findMaxAux_none_eq (m : List DebtEntry) :
    ∀ (best : ℚ) (bk : Option (String × String)),
      (findMaxAux best bk m).2 = none → (findMaxAux best bk m).1 = best := by
  induction m with
  | nil => intro best bk _; rfl
  | cons e rest ih =>
    intro best bk hnone
    unfold findMaxAux at hnone ⊢
    by_cases h : best < e.amount
    · rw [if_pos h] at hnone
      have := findMaxAux_some_isSome rest e.amount (e.debtor, e.creditor)
      rw [hnone] at this
      cases this
    · rw [if_neg h] at hnone ⊢
      exact ih best bk hnone

theorem findMaxAux_first (m : List DebtEntry) :
    ∀ (best : ℚ) (bk : Option (String × String)) (best' : ℚ)
      (k : String × String), findMaxAux best bk m = (best', some k) →
      (best' = best ∧ some k = bk ∧ ∀ e ∈ m, e.amount ≤ best) ∨
      (∃ pre e post, m = pre ++ e :: post ∧ (e.debtor, e.creditor) = k ∧
        e.amount = best' ∧ best < best' ∧ ∀ x ∈ pre, x.amount < best') := by
  induction m with
  | nil =>
    intro best bk best' k h
    unfold findMaxAux at h
    injection h with h1 h2
    exact Or.inl ⟨h1.symm, h2.symm, fun _ hx => (List.not_mem_nil _ hx).elim⟩
  | cons x rest ih =>
    intro best bk best' k h
    unfold findMaxAux at h
    by_cases hx : best < x.amount
    · rw [if_pos hx] at h
      rcases ih x.amount (some (x.debtor, x.creditor)) best' k h with
        ⟨hb, hk, hall⟩ | ⟨pre, e, post, hsplit, hke, hae, hbe, hpre⟩
      · refine Or.inr ⟨[], x, rest, by simp, ?_, ?_, ?_, ?_⟩
        · exact Option.some_injective _ hk.symm
        · rw [hb]
        · rw [hb]; exact hx
        · intro y hy; cases hy
      · refine Or.inr ⟨x :: pre, e, post, by rw [hsplit]; rfl, hke, hae, ?_, ?_⟩
        · exact lt_trans hx hbe
        · intro y hy
          rcases List.mem_cons.1 hy with rfl | hy2
          · exact hbe
          · exact hpre y hy2
    · rw [if_neg hx] at h
      rcases ih best bk best' k h with
        ⟨hb, hk, hall⟩ | ⟨pre, e, post, hsplit, hke, hae, hbe, hpre⟩
      · refine Or.inl ⟨hb, hk, ?_⟩
        intro e he
        rcases List.mem_cons.1 he with rfl | h2
        · exact not_lt.1 hx
        · exact hall e h2
      · refine Or.inr ⟨x :: pre, e, post, by rw [hsplit]; rfl, hke, hae, hbe, ?_⟩
        intro y hy
        rcases List.mem_cons.1 hy with rfl | hy2
        · exact lt_of_le_of_lt (not_lt.1 hx) hbe
        · exact hpre y hy2

/-- The greedy scan returns the first cell attaining the maximum, which is
positive and bounds every cell. -/
theorem findMax_first (m : List DebtEntry) (best : ℚ) (k : String × String)
    (h : findMax m = (best, some k)) :
    0 < best ∧ (∀ e ∈ m, e.amount ≤ best) ∧
      ∃ pre e post, m = pre ++ e :: post ∧ (e.debtor, e.creditor) = k ∧
        e.amount = best ∧ ∀ x ∈ pre, x.amount < best := by
  rcases findMaxAux_first m 0 none best k h with ⟨_, hk, _⟩ | ⟨pre, e, post, hsplit, hke, hae, hbe, hpre⟩
  · cases hk
  · refine ⟨hbe, ?_, pre, e, post, hsplit, hke, hae, hpre⟩
    intro x hx
    have := findMaxAux_ge m 0 none x hx
    unfold findMax at h
    rw [h] at this
    exact this

theorem countAbove_cons (e : DebtEntry) (m : List DebtEntry) :
    countAbove (e :: m) =
      countAbove m + (if 1 / 100 < e.amount then 1 else 0) := by
  unfold countAbove
  rw [List.countP_cons]
  by_cases h : 1 / 100 < e.amount <;> simp [h]

theorem countAbove_zeroKey_le (k : String × String) (m : List DebtEntry) :
    countAbove (zeroKey k m) ≤ countAbove m := by
  induction m with
  | nil => exact le_refl 0
  | cons x rest ih =>
    have hz : zeroKey k (x :: rest) =
        (if x.debtor = k.1 ∧ x.creditor = k.2 then { x with amount := 0 }
          else x) :: zeroKey k rest := rfl
    rw [hz, countAbove_cons, countAbove_cons]
    by_cases hm : x.debtor = k.1 ∧ x.creditor = k.2
    · rw [if_pos hm]
      have : (if 1 / 100 < ({ x with amount := 0 } : DebtEntry).amount
          then 1 else 0) = 0 := by norm_num
      rw [this]
      exact le_trans (Nat.add_le_add_right ih 0)
        (Nat.add_le_add_left (Nat.zero_le _) _)
    · rw [if_neg hm]
      exact Nat.add_le_add_right ih _

theorem countAbove_zeroKey_lt (k : String × String) (m : List DebtEntry)
    (e : DebtEntry) (he : e ∈ m) (hk : (e.debtor, e.creditor) = k)
    (ha : 1 / 100 < e.amount) :
    countAbove (zeroKey k m) < countAbove m := by
  induction m with
  | nil => cases he
  | cons x rest ih =>
    have hz : zeroKey k (x :: rest) =
        (if x.debtor = k.1 ∧ x.creditor = k.2 then { x with amount := 0 }
          else x) :: zeroKey k rest := rfl
    rw [hz, countAbove_cons, countAbove_cons]
    rcases List.mem_cons.1 he with rfl | hrest
    · have hm : e.debtor = k.1 ∧ e.creditor = k.2 := by
        constructor
        · rw [← hk]
        · rw [← hk]
      rw [if_pos hm]
      have h0 : (if 1 / 100 < ({ e with amount := 0 } : DebtEntry).amount
          then 1 else 0) = 0 := by norm_num
      rw [h0, if_pos ha, Nat.add_zero]
      exact lt_of_le_of_lt (countAbove_zeroKey_le k rest)
        (Nat.lt_succ_of_le (le_refl _))
    · by_cases hm : x.debtor = k.1 ∧ x.creditor = k.2
      · rw [if_pos hm]
        have h0 : (if 1 / 100 < ({ x with amount := 0 } : DebtEntry).amount
            then 1 else 0) = 0 := by norm_num
        rw [h0, Nat.add_zero]
        exact lt_of_lt_of_le (ih hrest)
          (Nat.le_add_right _ _)
      · rw [if_neg hm]
        exact Nat.add_lt_add_right (ih hrest) _

theorem findMax_fst_eq (m : List DebtEntry) (best : ℚ)
    (bk : Option (String × String)) (hf : findMax m = (best, bk)) :
    best = (findMaxAux 0 none m).1 := by
  rw [show findMaxAux 0 none m = findMax m from rfl, hf]

theorem greedyStep_some_case (m : List DebtEntry) (best : ℚ)
    (k : String × String) (hf : findMax m = (best, some k)) :
    greedyStep m =
      if 1 / 100 < best then
        some (⟨k.1, k.2, best⟩, zeroKey k m)
      else none := by
  unfold greedyStep
  rw [hf]

theorem greedyStep_none_case (m : List DebtEntry) (best : ℚ)
    (hf : findMax m = (best, none)) : greedyStep m = none := by
  unfold greedyStep
  rw [hf]

theorem greedyStep_none_bound (m : List DebtEntry)
    (h : greedyStep m = none) : ∀ e ∈ m, e.amount ≤ 1 / 100 := by
  intro e he
  have hge := findMaxAux_ge m 0 none e he
  cases hf : findMax m with
  | mk best bk =>
    rw [← findMax_fst_eq m best bk hf] at hge
    cases bk with
    | none =>
      have hb : best = 0 := by
        rw [findMax_fst_eq m best none hf]
        exact findMaxAux_none_eq m 0 none
          (by rw [show findMaxAux 0 none m = findMax m from rfl, hf])
      rw [hb] at hge
      exact le_trans hge (by norm_num)
    | some k =>
      rw [greedyStep_some_case m best k hf] at h
      by_cases hlt : 1 / 100 < best
      · rw [if_pos hlt] at h
        cases h
      · exact le_trans hge (not_lt.1 hlt)

theorem greedyStep_of_countAbove_zero (m : List DebtEntry)
    (h : countAbove m = 0) : greedyStep m = none := by
  cases hf : findMax m with
  | mk best bk =>
    cases bk with
    | none => exact greedyStep_none_case m best hf
    | some k =>
      rw [greedyStep_some_case m best k hf, if_neg ?_]
      intro hlt
      obtain ⟨-, -, pre, e, post, hsplit, -, hae, -⟩ := findMax_first m best k hf
      have hmem : e ∈ m := by
        rw [hsplit]
        exact List.mem_append.2 (Or.inr (by simp))
      have hpos : 0 < countAbove m := by
        unfold countAbove
        rw [List.countP_pos_iff]
        exact ⟨e, hmem, by simpa [hae] using hlt⟩
      omega

theorem greedyStep_decreases (m : List DebtEntry) (i : Instr)
    (m1 : List DebtEntry) (h : greedyStep m = some (i, m1)) :
    countAbove m1 < countAbove m := by
  cases hf : findMax m with
  | mk best bk =>
    cases bk with
    | none =>
      rw [greedyStep_none_case m best hf] at h
      cases h
    | some k =>
      rw [greedyStep_some_case m best k hf] at h
      by_cases hlt : 1 / 100 < best
      · rw [if_pos hlt] at h
        injection h with h2
        obtain ⟨-, -, pre, e, post, hsplit, hke, hae, -⟩ :=
          findMax_first m best k hf
        have hmem : e ∈ m := by
          rw [hsplit]
          exact List.mem_append.2 (Or.inr (by simp))
        have hm1 : m1 = zeroKey k m := congrArg Prod.snd h2.symm
        rw [hm1]
        exact countAbove_zeroKey_lt k m e hmem hke (by rw [hae]; exact hlt)
      · rw [if_neg hlt] at h
        cases h

theorem greedyRun_spec : ∀ (n : ℕ) (m : List DebtEntry), countAbove m ≤ n →
    (greedyRun n m).1.length ≤ countAbove m ∧
      greedyStep (greedyRun n m).2 = none := by
  intro n
  induction n with
  | zero =>
    intro m hm
    exact ⟨Nat.zero_le _,
      greedyStep_of_countAbove_zero m (Nat.le_zero.1 hm)⟩
  | succ n ih =>
    intro m hm
    cases hs : greedyStep m with
    | none =>
      have hrun : greedyRun (n + 1) m = ([], m) := by
        unfold greedyRun
        rw [hs]
      rw [hrun]
      exact ⟨Nat.zero_le _, hs⟩
    | some im =>
      obtain ⟨i, m1⟩ := im
      have hrun : greedyRun (n + 1) m =
          (i :: (greedyRun n m1).1, (greedyRun n m1).2) := by
        show (match greedyStep m with
          | none => ([], m)
          | some (i, m1) =>
            let r := greedyRun n m1
            (i :: r.1, r.2)) = (i :: (greedyRun n m1).1, (greedyRun n m1).2)
        rw [hs]
      have hlt := greedyStep_decreases m i m1 hs
      obtain ⟨ih1, ih2⟩ := ih m1 (by omega)
      rw [hrun]
      refine ⟨?_, ih2⟩
      simp only [List.length_cons]
      omega

theorem length_foldl_const {α : Type} (l : List α)
    (f : List DebtEntry → α → List DebtEntry)
    (hf : ∀ acc a, (f acc a).length = acc.length) (m : List DebtEntry) :
    (l.foldl f m).length = m.length := by
  induction l generalizing m with
  | nil => rfl
  | cons a rest ih => rw [List.foldl_cons, ih (f m a), hf]

theorem addDebt_length (d c : String) (a : ℚ) (m : List DebtEntry) :
    (addDebt d c a m).length = m.length := by
  unfold addDebt
  rw [List.length_map]

theorem fillMatrix_length (balances : List (String × ℚ))
    (m : List DebtEntry) : (fillMatrix balances m).length = m.length := by
  unfold fillMatrix
  refine length_foldl_const balances _ ?_ m
  intro acc bal
  by_cases hneg : bal.2 < 0
  · rw [if_pos hneg]
    refine length_foldl_const _ _ ?_ acc
    intro acc2 c
    exact addDebt_length _ _ _ _
  · rw [if_neg hneg]

theorem length_flatMap_le {α β : Type} (l : List α) (f : α → List β) (c : ℕ)
    (h : ∀ a, (f a).length ≤ c) : (l.flatMap f).length ≤ l.length * c := by
  induction l with
  | nil => simp
  | cons a rest ih =>
    rw [List.flatMap_cons, List.length_append, List.length_cons,
      Nat.succ_mul]
    have := Nat.add_le_add ih (h a)
    omega

theorem initMatrix_length_le (ms : List String) :
    (initMatrix ms).length ≤ ms.length * ms.length := by
  unfold initMatrix
  refine length_flatMap_le ms _ ms.length ?_
  intro a
  rw [List.length_map]
  exact List.length_filter_le _ _

/-- C6 (amended): the greedy `while (changes)` loop of
`updateSimplifiedDebts` terminates for every input — each iteration
zeroes the first largest matrix cell when it exceeds `0.01` and stops
otherwise — and the number of emitted instructions is bounded by the
number of matrix cells above the threshold, hence by the number of
ordered member pairs (members² cells), not by the number of members;
when the loop stops, no remaining cell exceeds the `0.01` threshold. -/
theorem c6_greedy_terminates_and_clears (members : List String)
    (balances : List (String × ℚ)) :
    (updateSimplifiedDebts members balances).1.length ≤
      countAbove (buildDebtMatrix members balances) ∧
    countAbove (buildDebtMatrix members balances) ≤
      (buildDebtMatrix members balances).length ∧
    (buildDebtMatrix members balances).length ≤
      members.length * members.length ∧
    greedyStep (updateSimplifiedDebts members balances).2 = none ∧
    (∀ e ∈ (updateSimplifiedDebts members balances).2,
      e.amount ≤ 1 / 100) := by
  obtain ⟨h1, h2⟩ := greedyRun_spec
    (countAbove (buildDebtMatrix members balances))
    (buildDebtMatrix members balances) (le_refl _)
  refine ⟨h1, List.countP_le_length _, ?_, h2, greedyStep_none_bound _ h2⟩
  unfold buildDebtMatrix
  rw [fillMatrix_length]
  exact initMatrix_length_le members

theorem greedyRun_succ_some (n : ℕ) (m : List DebtEntry) (i : Instr)
    (m1 : List DebtEntry) (h : greedyStep m = some (i, m1)) :
    greedyRun (n + 1) m = (i :: (greedyRun n m1).1, (greedyRun n m1).2) := by
  show (match greedyStep m with
    | none => ([], m)
    | some (i, m1) =>
      let r := greedyRun n m1
      (i :: r.1, r.2)) = (i :: (greedyRun n m1).1, (greedyRun n m1).2)
  rw [h]

/-- The members of the five-member tie example used against the
iteration bound. -/
def membersC6 : List String := ["a", "b", "p", "q", "r"]

/-- Balances of the five-member example: two debtors of 3, three
creditors sharing credit 6 — six positive matrix cells. -/
def balancesC6 : List (String × ℚ) :=
  [("a", -3), ("b", -3), ("p", 2), ("q", 2), ("r", 2)]
def c6m0 : List DebtEntry :=
  [⟨"a", "b", 0⟩, ⟨"a", "p", 1⟩, ⟨"a", "q", 1⟩, ⟨"a", "r", 1⟩, ⟨"b", "a", 0⟩, ⟨"b", "p", 1⟩, ⟨"b", "q", 1⟩, ⟨"b", "r", 1⟩, ⟨"p", "a", 0⟩, ⟨"p", "b", 0⟩, ⟨"p", "q", 0⟩, ⟨"p", "r", 0⟩, ⟨"q", "a", 0⟩, ⟨"q", "b", 0⟩, ⟨"q", "p", 0⟩, ⟨"q", "r", 0⟩, ⟨"r", "a", 0⟩, ⟨"r", "b", 0⟩, ⟨"r", "p", 0⟩, ⟨"r", "q", 0⟩]
def c6m1 : List DebtEntry :=
  [⟨"a", "b", 0⟩, ⟨"a", "p", 0⟩, ⟨"a", "q", 1⟩, ⟨"a", "r", 1⟩, ⟨"b", "a", 0⟩, ⟨"b", "p", 1⟩, ⟨"b", "q", 1⟩, ⟨"b", "r", 1⟩, ⟨"p", "a", 0⟩, ⟨"p", "b", 0⟩, ⟨"p", "q", 0⟩, ⟨"p", "r", 0⟩, ⟨"q", "a", 0⟩, ⟨"q", "b", 0⟩, ⟨"q", "p", 0⟩, ⟨"q", "r", 0⟩, ⟨"r", "a", 0⟩, ⟨"r", "b", 0⟩, ⟨"r", "p", 0⟩, ⟨"r", "q", 0⟩]
def c6m2 : List DebtEntry :=
  [⟨"a", "b", 0⟩, ⟨"a", "p", 0⟩, ⟨"a", "q", 0⟩, ⟨"a", "r", 1⟩, ⟨"b", "a", 0⟩, ⟨"b", "p", 1⟩, ⟨"b", "q", 1⟩, ⟨"b", "r", 1⟩, ⟨"p", "a", 0⟩, ⟨"p", "b", 0⟩, ⟨"p", "q", 0⟩, ⟨"p", "r", 0⟩, ⟨"q", "a", 0⟩, ⟨"q", "b", 0⟩, ⟨"q", "p", 0⟩, ⟨"q", "r", 0⟩, ⟨"r", "a", 0⟩, ⟨"r", "b", 0⟩, ⟨"r", "p", 0⟩, ⟨"r", "q", 0⟩]
def c6m3 : List DebtEntry :=
  [⟨"a", "b", 0⟩, ⟨"a", "p", 0⟩, ⟨"a", "q", 0⟩, ⟨"a", "r", 0⟩, ⟨"b", "a", 0⟩, ⟨"b", "p", 1⟩, ⟨"b", "q", 1⟩, ⟨"b", "r", 1⟩, ⟨"p", "a", 0⟩, ⟨"p", "b", 0⟩, ⟨"p", "q", 0⟩, ⟨"p", "r", 0⟩, ⟨"q", "a", 0⟩, ⟨"q", "b", 0⟩, ⟨"q", "p", 0⟩, ⟨"q", "r", 0⟩, ⟨"r", "a", 0⟩, ⟨"r", "b", 0⟩, ⟨"r", "p", 0⟩, ⟨"r", "q", 0⟩]
def c6m4 : List DebtEntry :=
  [⟨"a", "b", 0⟩, ⟨"a", "p", 0⟩, ⟨"a", "q", 0⟩, ⟨"a", "r", 0⟩, ⟨"b", "a", 0⟩, ⟨"b", "p", 0⟩, ⟨"b", "q", 1⟩, ⟨"b", "r", 1⟩, ⟨"p", "a", 0⟩, ⟨"p", "b", 0⟩, ⟨"p", "q", 0⟩, ⟨"p", "r", 0⟩, ⟨"q", "a", 0⟩, ⟨"q", "b", 0⟩, ⟨"q", "p", 0⟩, ⟨"q", "r", 0⟩, ⟨"r", "a", 0⟩, ⟨"r", "b", 0⟩, ⟨"r", "p", 0⟩, ⟨"r", "q", 0⟩]
def c6m5 : List DebtEntry :=
  [⟨"a", "b", 0⟩, ⟨"a", "p", 0⟩, ⟨"a", "q", 0⟩, ⟨"a", "r", 0⟩, ⟨"b", "a", 0⟩, ⟨"b", "p", 0⟩, ⟨"b", "q", 0⟩, ⟨"b", "r", 1⟩, ⟨"p", "a", 0⟩, ⟨"p", "b", 0⟩, ⟨"p", "q", 0⟩, ⟨"p", "r", 0⟩, ⟨"q", "a", 0⟩, ⟨"q", "b", 0⟩, ⟨"q", "p", 0⟩, ⟨"q", "r", 0⟩, ⟨"r", "a", 0⟩, ⟨"r", "b", 0⟩, ⟨"r", "p", 0⟩, ⟨"r", "q", 0⟩]
def c6m6 : List DebtEntry :=
  [⟨"a", "b", 0⟩, ⟨"a", "p", 0⟩, ⟨"a", "q", 0⟩, ⟨"a", "r", 0⟩, ⟨"b", "a", 0⟩, ⟨"b", "p", 0⟩, ⟨"b", "q", 0⟩, ⟨"b", "r", 0⟩, ⟨"p", "a", 0⟩, ⟨"p", "b", 0⟩, ⟨"p", "q", 0⟩, ⟨"p", "r", 0⟩, ⟨"q", "a", 0⟩, ⟨"q", "b", 0⟩, ⟨"q", "p", 0⟩, ⟨"q", "r", 0⟩, ⟨"r", "a", 0⟩, ⟨"r", "b", 0⟩, ⟨"r", "p", 0⟩, ⟨"r", "q", 0⟩]

theorem c6build : buildDebtMatrix membersC6 balancesC6 = c6m0 := by
  norm_num [buildDebtMatrix, initMatrix, fillMatrix, addDebt, membersC6,
    balancesC6, c6m0, List.filter_cons, Function.comp]
  simp [List.filter_cons]

theorem c6count : countAbove c6m0 = 6 := by
  norm_num [countAbove, c6m0, List.countP_cons]

theorem c6find0 : findMax c6m0 = (1, some ("a", "p")) := by
  have f1 : (0 : ℚ) < 1 := by norm_num
  have f2 : ¬ ((1 : ℚ) < 0) := by norm_num
  have f4 : ¬ ((1 : ℚ) < 1) := by norm_num
  have f5 : ¬ ((0 : ℚ) < 0) := by norm_num
  simp [findMax, findMaxAux, f2, f4, f5, c6m0, f1]

theorem c6zero0 : zeroKey ("a", "p") c6m0 = c6m1 := by
  simp [zeroKey, c6m0, c6m1]

theorem c6step0 : greedyStep c6m0 =
    some (⟨"a", "p", 1⟩, c6m1) := by
  rw [greedyStep_some_case c6m0 1 ("a", "p") c6find0,
    if_pos (by norm_num : (1 : ℚ) / 100 < 1), c6zero0]

theorem c6find1 : findMax c6m1 = (1, some ("a", "q")) := by
  have f1 : (0 : ℚ) < 1 := by norm_num
  have f2 : ¬ ((1 : ℚ) < 0) := by norm_num
  have f4 : ¬ ((1 : ℚ) < 1) := by norm_num
  have f5 : ¬ ((0 : ℚ) < 0) := by norm_num
  simp [findMax, findMaxAux, f2, f4, f5, c6m1, f1]

theorem c6zero1 : zeroKey ("a", "q") c6m1 = c6m2 := by
  simp [zeroKey, c6m1, c6m2]

theorem c6step1 : greedyStep c6m1 =
    some (⟨"a", "q", 1⟩, c6m2) := by
  rw [greedyStep_some_case c6m1 1 ("a", "q") c6find1,
    if_pos (by norm_num : (1 : ℚ) / 100 < 1), c6zero1]

theorem c6find2 : findMax c6m2 = (1, some ("a", "r")) := by
  have f1 : (0 : ℚ) < 1 := by norm_num
  have f2 : ¬ ((1 : ℚ) < 0) := by norm_num
  have f4 : ¬ ((1 : ℚ) < 1) := by norm_num
  have f5 : ¬ ((0 : ℚ) < 0) := by norm_num
  simp [findMax, findMaxAux, f2, f4, f5, c6m2, f1]

theorem c6zero2 : zeroKey ("a", "r") c6m2 = c6m3 := by
  simp [zeroKey, c6m2, c6m3]

theorem c6step2 : greedyStep c6m2 =
    some (⟨"a", "r", 1⟩, c6m3) := by
  rw [greedyStep_some_case c6m2 1 ("a", "r") c6find2,
    if_pos (by norm_num : (1 : ℚ) / 100 < 1), c6zero2]

theorem c6find3 : findMax c6m3 = (1, some ("b", "p")) := by
  have f1 : (0 : ℚ) < 1 := by norm_num
  have f2 : ¬ ((1 : ℚ) < 0) := by norm_num
  have f4 : ¬ ((1 : ℚ) < 1) := by norm_num
  have f5 : ¬ ((0 : ℚ) < 0) := by norm_num
  simp [findMax, findMaxAux, f2, f4, f5, c6m3, f1]

theorem c6zero3 : zeroKey ("b", "p") c6m3 = c6m4 := by
  simp [zeroKey, c6m3, c6m4]

theorem c6step3 : greedyStep c6m3 =
    some (⟨"b", "p", 1⟩, c6m4) := by
  rw [greedyStep_some_case c6m3 1 ("b", "p") c6find3,
    if_pos (by norm_num : (1 : ℚ) / 100 < 1), c6zero3]

theorem c6find4 : findMax c6m4 = (1, some ("b", "q")) := by
  have f1 : (0 : ℚ) < 1 := by norm_num
  have f2 : ¬ ((1 : ℚ) < 0) := by norm_num
  have f4 : ¬ ((1 : ℚ) < 1) := by norm_num
  have f5 : ¬ ((0 : ℚ) < 0) := by norm_num
  simp [findMax, findMaxAux, f2, f4, f5, c6m4, f1]

theorem c6zero4 : zeroKey ("b", "q") c6m4 = c6m5 := by
  simp [zeroKey, c6m4, c6m5]

theorem c6step4 : greedyStep c6m4 =
    some (⟨"b", "q", 1⟩, c6m5) := by
  rw [greedyStep_some_case c6m4 1 ("b", "q") c6find4,
    if_pos (by norm_num : (1 : ℚ) / 100 < 1), c6zero4]

theorem c6find5 : findMax c6m5 = (1, some ("b", "r")) := by
  have f1 : (0 : ℚ) < 1 := by norm_num
  have f2 : ¬ ((1 : ℚ) < 0) := by norm_num
  have f4 : ¬ ((1 : ℚ) < 1) := by norm_num
  have f5 : ¬ ((0 : ℚ) < 0) := by norm_num
  simp [findMax, findMaxAux, f2, f4, f5, c6m5, f1]

theorem c6zero5 : zeroKey ("b", "r") c6m5 = c6m6 := by
  simp [zeroKey, c6m5, c6m6]

theorem c6step5 : greedyStep c6m5 =
    some (⟨"b", "r", 1⟩, c6m6) := by
  rw [greedyStep_some_case c6m5 1 ("b", "r") c6find5,
    if_pos (by norm_num : (1 : ℚ) / 100 < 1), c6zero5]

theorem c6run : greedyRun 6 c6m0 =
    ([⟨"a", "p", 1⟩, ⟨"a", "q", 1⟩, ⟨"a", "r", 1⟩,
      ⟨"b", "p", 1⟩, ⟨"b", "q", 1⟩, ⟨"b", "r", 1⟩], c6m6) := by
  rw [greedyRun_succ_some 5 _ _ _ c6step0, greedyRun_succ_some 4 _ _ _ c6step1,
    greedyRun_succ_some 3 _ _ _ c6step2, greedyRun_succ_some 2 _ _ _ c6step3,
    greedyRun_succ_some 1 _ _ _ c6step4, greedyRun_succ_some 0 _ _ _ c6step5]
  rfl

/-- C6: the greedy loop of `updateSimplifiedDebts` can run more
iterations than the group has members, refuting the claimed bound of at
most the number of members: with 5 members (two owing 3, three owed 2)
the loop emits 6 instructions. -/
theorem c6_iteration_bound_counterexample :
    (updateSimplifiedDebts membersC6 balancesC6).1.length = 6 ∧
    membersC6.length = 5 ∧ ¬ ((6 : ℕ) ≤ 5) := by
  refine ⟨?_, rfl, by omega⟩
  unfold updateSimplifiedDebts
  rw [c6build, c6count, c6run]
  rfl

/-- Witness for `c6_greedy_terminates_and_clears`: on a concrete
two-member ledger the final matrix cell is below the threshold. -/
theorem c6_greedy_terminates_and_clears_witness :
    (⟨"a", "b", 0⟩ : DebtEntry).amount ≤ 1 / 100 := by
  refine (c6_greedy_terminates_and_clears ["a", "b"]
    [("a", -1), ("b", 1)]).2.2.2.2 ⟨"a", "b", 0⟩ ?_
  have hbuild : buildDebtMatrix ["a", "b"] [("a", -1), ("b", 1)] =
      [⟨"a", "b", 1⟩, ⟨"b", "a", 0⟩] := by
    norm_num [buildDebtMatrix, initMatrix, fillMatrix, addDebt,
      List.filter_cons, Function.comp]
    simp [List.filter_cons]
  have hcount : countAbove [(⟨"a", "b", 1⟩ : DebtEntry), ⟨"b", "a", 0⟩] = 1 := by
    norm_num [countAbove, List.countP_cons]
  have hfind : findMax [(⟨"a", "b", 1⟩ : DebtEntry), ⟨"b", "a", 0⟩] =
      (1, some ("a", "b")) := by
    have f1 : (0 : ℚ) < 1 := by norm_num
    have f2 : ¬ ((1 : ℚ) < 0) := by norm_num
    simp [findMax, findMaxAux, f1, f2]
  have hstep : greedyStep [(⟨"a", "b", 1⟩ : DebtEntry), ⟨"b", "a", 0⟩] =
      some (⟨"a", "b", 1⟩, [⟨"a", "b", 0⟩, ⟨"b", "a", 0⟩]) := by
    rw [greedyStep_some_case _ 1 ("a", "b") hfind,
      if_pos (by norm_num : (1 : ℚ) / 100 < 1)]
    simp [zeroKey]
  unfold updateSimplifiedDebts
  rw [hbuild, hcount, greedyRun_succ_some 0 _ _ _ hstep]
  simp [greedyRun]

/-- Matrix of the tie-break example: members in order `b, a, c`, with
tied debts `b→c = 5` and `a→c = 5`. -/
def c4m0 : List DebtEntry :=
  [⟨"b", "a", 0⟩, ⟨"b", "c", 5⟩, ⟨"a", "b", 0⟩, ⟨"a", "c", 5⟩,
   ⟨"c", "b", 0⟩, ⟨"c", "a", 0⟩]

def c4m1 : List DebtEntry :=
  [⟨"b", "a", 0⟩, ⟨"b", "c", 0⟩, ⟨"a", "b", 0⟩, ⟨"a", "c", 5⟩,
   ⟨"c", "b", 0⟩, ⟨"c", "a", 0⟩]

def c4m2 : List DebtEntry :=
  [⟨"b", "a", 0⟩, ⟨"b", "c", 0⟩, ⟨"a", "b", 0⟩, ⟨"a", "c", 0⟩,
   ⟨"c", "b", 0⟩, ⟨"c", "a", 0⟩]

theorem c4build :
    buildDebtMatrix ["b", "a", "c"] [("b", -5), ("a", -5), ("c", 10)] =
      c4m0 := by
  norm_num [buildDebtMatrix, initMatrix, fillMatrix, addDebt, c4m0,
    List.filter_cons, Function.comp]
  simp [List.filter_cons]

theorem c4count : countAbove c4m0 = 2 := by
  norm_num [countAbove, c4m0, List.countP_cons]

theorem c4find0 : findMax c4m0 = (5, some ("b", "c")) := by
  have f1 : (0 : ℚ) < 5 := by norm_num
  have f2 : ¬ ((5 : ℚ) < 0) := by norm_num
  have f4 : ¬ ((5 : ℚ) < 5) := by norm_num
  have f5 : ¬ ((0 : ℚ) < 0) := by norm_num
  simp [findMax, findMaxAux, f1, f2, f4, f5]

theorem c4find1 : findMax c4m1 = (5, some ("a", "c")) := by
  have f1 : (0 : ℚ) < 5 := by norm_num
  have f2 : ¬ ((5 : ℚ) < 0) := by norm_num
  have f4 : ¬ ((5 : ℚ) < 5) := by norm_num
  have f5 : ¬ ((0 : ℚ) < 0) := by norm_num
  simp [findMax, findMaxAux, f1, f2, f4, f5]

theorem c4step0 : greedyStep c4m0 = some (⟨"b", "c", 5⟩, c4m1) := by
  rw [greedyStep_some_case c4m0 5 ("b", "c") c4find0,
    if_pos (by norm_num : (1 : ℚ) / 100 < 5)]
  simp [zeroKey, c4m0, c4m1]

theorem c4step1 : greedyStep c4m1 = some (⟨"a", "c", 5⟩, c4m2) := by
  rw [greedyStep_some_case c4m1 5 ("a", "c") c4find1,
    if_pos (by norm_num : (1 : ℚ) / 100 < 5)]
  simp [zeroKey, c4m1, c4m2]

/-- C4: with members in stored order `b, a, c` and the tied debts
`b→c = 5`, `a→c = 5`, the greedy loop emits the `b` instruction first —
the tie is broken by the position of the debtor in the member list (the
strict `>` scan keeps the first maximum), not by the lexicographically
smaller debtor id `a`. -/
theorem c4_tie_break_not_lexicographic_counterexample :
    (updateSimplifiedDebts ["b", "a", "c"]
        [("b", -5), ("a", -5), ("c", 10)]).1 =
      [⟨"b", "c", 5⟩, ⟨"a", "c", 5⟩] ∧
    ("a" : String) < "b" := by
  constructor
  · unfold updateSimplifiedDebts
    rw [c4build, c4count, greedyRun_succ_some 1 _ _ _ c4step0,
      greedyRun_succ_some 0 _ _ _ c4step1]
    rfl
  · rw [String.lt_iff_toList_lt]
    decide

/-- C4 (amended): `updateSimplifiedDebts` is a pure function of the
member list and the stored balances, so two runs on identical unchanged
state produce identical instruction lists; when debts tie in magnitude,
the emitted pair is the first cell attaining the maximum in the
row-major member order of the matrix (the scan updates only on strictly
greater values), not the lexicographically smallest debtor/creditor. -/
theorem c4_deterministic_first_max_tie_break :
    (∀ (members : List String) (balances : List (String × ℚ))
      (r1 r2 : List Instr × List DebtEntry),
      r1 = updateSimplifiedDebts members balances →
      r2 = updateSimplifiedDebts members balances → r1 = r2) ∧
    (∀ (m : List DebtEntry) (best : ℚ) (k : String × String),
      findMax m = (best, some k) →
      0 < best ∧ (∀ e ∈ m, e.amount ≤ best) ∧
        ∃ pre e post, m = pre ++ e :: post ∧ (e.debtor, e.creditor) = k ∧
          e.amount = best ∧ ∀ x ∈ pre, x.amount < best) :=
  ⟨fun _ _ _ _ h1 h2 => h1.trans h2.symm, findMax_first⟩

/-- Witness for `c4_deterministic_first_max_tie_break` at the concrete
tied matrix. -/
theorem c4_deterministic_first_max_tie_break_witness :
    0 < (5 : ℚ) ∧ (∀ e ∈ c4m0, e.amount ≤ 5) ∧
      ∃ pre e post, c4m0 = pre ++ e :: post ∧
        (e.debtor, e.creditor) = ("b", "c") ∧ e.amount = 5 ∧
        ∀ x ∈ pre, x.amount < 5 :=
  c4_deterministic_first_max_tie_break.2 c4m0 5 ("b", "c") c4find0

/-- Validity of an id per `mongoose.Types.ObjectId.isValid` for the common 24-hex-character id
form. -/
def isHexChar (ch : Char) : Bool :=
  ch.isDigit || (('a' ≤ ch) && (ch ≤ 'f')) || (('A' ≤ ch) && (ch ≤ 'F'))

def isValidObjectId (s : String) : Bool :=
  s.length = 24 && s.data.all (fun ch => isHexChar ch)

/-- Error kinds of the settle-balance route: invalid id (HTTP 400) and
not-a-party authorization failure (HTTP 403). -/
inductive SettleError where
  | invalidId
  | notAuthorized
deriving DecidableEq, Repr

/-- The persisted expenses of one group, in query/natural order. -/
structure LedgerState where
  expenses : List Expense
deriving DecidableEq, Repr

/-- The `findIndex`-and-mark of the settle loop (routes/dashboard.js
lines 1127–1156): settle the FIRST unsettled split of the given user,
report whether one was found. -/
def settleFirst (u : String) : List Split → List Split × Bool
  | [] => ([], false)
  | s :: rest =>
    if s.user = u ∧ s.settled = false then
      ({ s with settled := true } :: rest, true)
    else
      let r := settleFirst u rest
      (s :: r.1, r.2)

/-- The `$or` query of `POST /groups/:groupId/settle-balance`
(routes/dashboard.js lines 1066–1072); the conditions on `splitAmong.user`
and `splitAmong.settled` match array elements independently, as MongoDB
does without `$elemMatch`. -/
def matchesLink (userId withUserId : String) (e : Expense) : Bool :=
  (e.paidBy = withUserId && e.splitAmong.any (fun s => s.user = userId) &&
    e.splitAmong.any (fun s => s.settled = false)) ||
  (e.paidBy = userId && e.splitAmong.any (fun s => s.user = withUserId) &&
    e.splitAmong.any (fun s => s.settled = false))

/-- Per-expense body of the settle loop (routes/dashboard.js
lines 1120–1157). -/
def processMatched (userId withUserId : String) (e : Expense) :
    Expense × Bool :=
  if e.paidBy = withUserId then
    let r := settleFirst userId e.splitAmong
    ({ e with splitAmong := r.1 }, r.2)
  else if e.paidBy = userId then
    let r := settleFirst withUserId e.splitAmong
    ({ e with splitAmong := r.1 }, r.2)
  else (e, false)

/-- The synthetic direct-settlement expense (routes/dashboard.js
lines 1081–1101): category `Settlement`, paid by the settling user, both
splits settled at creation. -/
def settlementExpense (groupId userId withUserId : String) (amount : ℚ) :
    Expense :=
  ⟨"Balance Settlement", amount, userId, groupId, "Settlement", 0,
   [⟨userId, 0, true⟩, ⟨withUserId, amount, true⟩]⟩

/-- Route `POST /groups/:groupId/settle-balance` (routes/dashboard.js
lines 1022–1180): id validation, the party-only authorization check, then
either a direct settlement record (no matching expenses) or marking the
first unsettled linking split of every matching expense — the `amount`
parameter is never consulted in that branch and no date ordering is
applied. Returns the new ledger, the settledCount and the
directSettlement flag. -/
def settleBalance (currentUserId groupId userId withUserId : String)
    (amount : ℚ) (st : LedgerState) :
    Except SettleError (LedgerState × ℕ × Bool) :=
  if ¬ (isValidObjectId groupId ∧ isValidObjectId userId ∧
      isValidObjectId withUserId) then
    .error .invalidId
  else if currentUserId ≠ userId ∧ currentUserId ≠ withUserId then
    .error .notAuthorized
  else if st.expenses.filter
      (fun e => e.group = groupId && matchesLink userId withUserId e) = [] then
    .ok (⟨st.expenses ++ [settlementExpense groupId userId withUserId amount]⟩,
      1, true)
  else
    .ok (⟨(st.expenses.map (fun e =>
        if e.group = groupId ∧ matchesLink userId withUserId e = true then
          processMatched userId withUserId e
        else (e, false))).map (fun p => p.1)⟩,
      ((st.expenses.map (fun e =>
        if e.group = groupId ∧ matchesLink userId withUserId e = true then
          processMatched userId withUserId e
        else (e, false))).filter (fun p => p.2)).length,
      false)

/-- The ledger state observable after the route responds: unchanged on
any error response. -/
def resultingState (st : LedgerState)
    (r : Except SettleError (LedgerState × ℕ × Bool)) : LedgerState :=
  match r with
  | .error _ => st
  | .ok (s, _, _) => s

/-- Total amount carried by settled splits across the ledger. -/
def settledSum (st : LedgerState) : ℚ :=
  (st.expenses.map (fun e => splitSum (e.splitAmong.filter (·.settled)))).sum

/-- Number of unsettled splits in a split list. -/
def unsettledCount (sp : List Split) : ℕ :=
  sp.countP (fun s => decide (s.settled = false))

/-- C9: the settle-balance route succeeds only for a caller who is one of
the two parties: with well-formed ids, any other caller receives the
authorization error and the ledger is unchanged; conversely any
successful invocation implies the caller is a party. -/
theorem c9_settle_balance_requires_party (c g u w : String) (a : ℚ)
    (st : LedgerState) :
    ((isValidObjectId g ∧ isValidObjectId u ∧ isValidObjectId w) →
      c ≠ u → c ≠ w →
      settleBalance c g u w a st = .error .notAuthorized ∧
      resultingState st (settleBalance c g u w a st) = st) ∧
    (∀ r, settleBalance c g u w a st = .ok r → c = u ∨ c = w) := by
  constructor
  · intro hv h1 h2
    have heq : settleBalance c g u w a st = .error .notAuthorized := by
      unfold settleBalance
      rw [if_neg (not_not_intro hv), if_pos ⟨h1, h2⟩]
    exact ⟨heq, by rw [heq]; rfl⟩
  · intro r h
    by_contra hne
    push_neg at hne
    obtain ⟨h1, h2⟩ := hne
    unfold settleBalance at h
    by_cases hv : (isValidObjectId g ∧ isValidObjectId u ∧
        isValidObjectId w : Prop)
    · rw [if_neg (not_not_intro hv), if_pos ⟨h1, h2⟩] at h
      cases h
    · rw [if_pos hv] at h
      cases h

/-- Witness for `c9_settle_balance_requires_party`: a concrete outsider
caller is rejected. -/
theorem c9_settle_balance_requires_party_witness :
    settleBalance "dddddddddddddddddddddddd" "cccccccccccccccccccccccc"
        "aaaaaaaaaaaaaaaaaaaaaaaa" "bbbbbbbbbbbbbbbbbbbbbbbb" 10 ⟨[]⟩ =
      .error .notAuthorized ∧
    resultingState ⟨[]⟩
      (settleBalance "dddddddddddddddddddddddd" "cccccccccccccccccccccccc"
        "aaaaaaaaaaaaaaaaaaaaaaaa" "bbbbbbbbbbbbbbbbbbbbbbbb" 10 ⟨[]⟩) =
      ⟨[]⟩ :=
  (c9_settle_balance_requires_party "dddddddddddddddddddddddd"
    "cccccccccccccccccccccccc" "aaaaaaaaaaaaaaaaaaaaaaaa"
    "bbbbbbbbbbbbbbbbbbbbbbbb" 10 ⟨[]⟩).1
    (by decide) (by decide) (by decide)

/-- Two identical 20-unit expenses paid by `a…a`, each with a 10-unit
unsettled split for `b…b`. -/
def c3e1 : Expense :=
  ⟨"lunch", 20, "aaaaaaaaaaaaaaaaaaaaaaaa", "cccccccccccccccccccccccc",
   "Food", 1,
   [⟨"aaaaaaaaaaaaaaaaaaaaaaaa", 10, true⟩,
    ⟨"bbbbbbbbbbbbbbbbbbbbbbbb", 10, false⟩]⟩

def c3e2 : Expense :=
  ⟨"taxi", 20, "aaaaaaaaaaaaaaaaaaaaaaaa", "cccccccccccccccccccccccc",
   "Food", 2,
   [⟨"aaaaaaaaaaaaaaaaaaaaaaaa", 10, true⟩,
    ⟨"bbbbbbbbbbbbbbbbbbbbbbbb", 10, false⟩]⟩

def c3e1s : Expense :=
  ⟨"lunch", 20, "aaaaaaaaaaaaaaaaaaaaaaaa", "cccccccccccccccccccccccc",
   "Food", 1,
   [⟨"aaaaaaaaaaaaaaaaaaaaaaaa", 10, true⟩,
    ⟨"bbbbbbbbbbbbbbbbbbbbbbbb", 10, true⟩]⟩

def c3e2s : Expense :=
  ⟨"taxi", 20, "aaaaaaaaaaaaaaaaaaaaaaaa", "cccccccccccccccccccccccc",
   "Food", 2,
   [⟨"aaaaaaaaaaaaaaaaaaaaaaaa", 10, true⟩,
    ⟨"bbbbbbbbbbbbbbbbbbbbbbbb", 10, true⟩]⟩

/-- C3: asked to settle `10` between `b` and `a`, the route marks BOTH
10-unit splits settled (settledCount 2, newly settled amount 20 > 10):
it does not stop after covering the requested amount. -/
theorem c3_settles_more_than_amount_counterexample :
    settleBalance "bbbbbbbbbbbbbbbbbbbbbbbb" "cccccccccccccccccccccccc"
        "bbbbbbbbbbbbbbbbbbbbbbbb" "aaaaaaaaaaaaaaaaaaaaaaaa" 10
        ⟨[c3e1, c3e2]⟩ =
      .ok (⟨[c3e1s, c3e2s]⟩, 2, false) ∧
    settledSum ⟨[c3e1s, c3e2s]⟩ - settledSum ⟨[c3e1, c3e2]⟩ = 20 ∧
    ¬ ((20 : ℚ) ≤ 10) := by
  refine ⟨by rfl, ?_, by norm_num⟩
  norm_num [settledSum, splitSum, c3e1, c3e2, c3e1s, c3e2s]

/-- C3 (amended): when unsettled splits directly linking the two users
exist, the settle-balance route marks settled the FIRST unsettled split
of the debtor in EVERY matching expense, in query order with no date
sort; the requested `amount` is ignored in this branch — the outcome is
identical for any two amounts — and each matching expense loses at most
one unsettled split. -/
theorem c3_settles_every_link_ignoring_amount (c g u w : String)
    (a1 a2 : ℚ) (st : LedgerState)
    (hv : isValidObjectId g ∧ isValidObjectId u ∧ isValidObjectId w)
    (hauth : c = u ∨ c = w)
    (hne : st.expenses.filter
      (fun e => e.group = g && matchesLink u w e) ≠ []) :
    settleBalance c g u w a1 st = settleBalance c g u w a2 st ∧
    (∀ (uu : String) (sp : List Split),
      unsettledCount (settleFirst uu sp).1 ≤ unsettledCount sp ∧
      unsettledCount sp ≤ unsettledCount (settleFirst uu sp).1 + 1) := by
  constructor
  · have hn : ¬ (c ≠ u ∧ c ≠ w) := fun hcc => hauth.elim hcc.1 hcc.2
    unfold settleBalance
    rw [if_neg (not_not_intro hv), if_neg hn, if_neg hne,
      if_neg (not_not_intro hv), if_neg hn, if_neg hne]
  · intro uu sp
    induction sp with
    | nil => exact ⟨le_refl 0, Nat.le_succ 0⟩
    | cons s rest ih =>
      by_cases hs : s.user = uu ∧ s.settled = false
      · have hfirst : settleFirst uu (s :: rest) =
            ({ s with settled := true } :: rest, true) := by
          rw [settleFirst, if_pos hs]
        rw [hfirst]
        unfold unsettledCount
        rw [List.countP_cons, List.countP_cons]
        simp [hs.2]
      · have hfirst : settleFirst uu (s :: rest) =
            (s :: (settleFirst uu rest).1, (settleFirst uu rest).2) := by
          rw [settleFirst, if_neg hs]
        rw [hfirst]
        unfold unsettledCount at ih ⊢
        rw [List.countP_cons, List.countP_cons]
        omega

/-- Witness for `c3_settles_every_link_ignoring_amount`: on the concrete
two-expense ledger, settling `5` and settling `1000` produce the same
result. -/
theorem c3_settles_every_link_ignoring_amount_witness :
    settleBalance "bbbbbbbbbbbbbbbbbbbbbbbb" "cccccccccccccccccccccccc"
        "bbbbbbbbbbbbbbbbbbbbbbbb" "aaaaaaaaaaaaaaaaaaaaaaaa" 5
        ⟨[c3e1, c3e2]⟩ =
      settleBalance "bbbbbbbbbbbbbbbbbbbbbbbb" "cccccccccccccccccccccccc"
        "bbbbbbbbbbbbbbbbbbbbbbbb" "aaaaaaaaaaaaaaaaaaaaaaaa" 1000
        ⟨[c3e1, c3e2]⟩ :=
  (c3_settles_every_link_ignoring_amount "bbbbbbbbbbbbbbbbbbbbbbbb"
    "cccccccccccccccccccccccc" "bbbbbbbbbbbbbbbbbbbbbbbb"
    "aaaaaaaaaaaaaaaaaaaaaaaa" 5 1000 ⟨[c3e1, c3e2]⟩
    (by decide) (Or.inl rfl) (by decide)).1

/-- Route `POST /groups/:groupId/expenses/:expenseId/settle` (routes/dashboard.js
lines 742–809) and its twin `POST /group/:groupId/settle/:expenseId`
(routes/dashboard/expenses.js lines 252–307): if the caller has a split,
set `settled = true` on every split belonging to the caller; otherwise
reject (403). Only the split list is touched before `expense.save()`. -/
def settleExpenseForUser (userId : String) (e : Expense) : Option Expense :=
  if (e.splitAmong.find? (fun s => s.user = userId)).isSome then
    some { e with splitAmong := e.splitAmong.map (fun s =>
      if s.user = userId then { s with settled := true } else s) }
  else none

/-- C10: settling a user's own share of an expense flips only that
user's settled flag(s): the expense's description, amount, payer, group,
category and date are unchanged, the split list keeps its length, and
every split keeps its user and amount, with the settled flag unchanged
for every other user and set to `true` for the calling user. -/
theorem c10_settle_changes_only_callers_flag (u : String) (e e1 : Expense)
    (h : settleExpenseForUser u e = some e1) :
    e1.description = e.description ∧ e1.amount = e.amount ∧
    e1.paidBy = e.paidBy ∧ e1.group = e.group ∧
    e1.category = e.category ∧ e1.date = e.date ∧
    e1.splitAmong.length = e.splitAmong.length ∧
    (∀ (i : ℕ) (hi : i < e.splitAmong.length)
      (hi1 : i < e1.splitAmong.length),
      (e1.splitAmong.get ⟨i, hi1⟩).user = (e.splitAmong.get ⟨i, hi⟩).user ∧
      (e1.splitAmong.get ⟨i, hi1⟩).amount =
        (e.splitAmong.get ⟨i, hi⟩).amount ∧
      ((e.splitAmong.get ⟨i, hi⟩).user ≠ u →
        (e1.splitAmong.get ⟨i, hi1⟩).settled =
          (e.splitAmong.get ⟨i, hi⟩).settled) ∧
      ((e.splitAmong.get ⟨i, hi⟩).user = u →
        (e1.splitAmong.get ⟨i, hi1⟩).settled = true)) := by
  unfold settleExpenseForUser at h
  by_cases hf : ((e.splitAmong.find? (fun s => s.user = u)).isSome : Prop)
  · rw [if_pos hf] at h
    injection h with h1
    subst h1
    refine ⟨rfl, rfl, rfl, rfl, rfl, rfl, List.length_map _ _, ?_⟩
    intro i hi hi1
    have hget : (List.map (fun s =>
        if s.user = u then { s with settled := true } else s)
          e.splitAmong).get ⟨i, hi1⟩ =
        if (e.splitAmong.get ⟨i, hi⟩).user = u then
          { e.splitAmong.get ⟨i, hi⟩ with settled := true }
        else e.splitAmong.get ⟨i, hi⟩ := by
      simp
    rw [hget]
    by_cases hu : (e.splitAmong.get ⟨i, hi⟩).user = u
    · rw [if_pos hu]
      exact ⟨rfl, rfl, fun hnu => absurd hu hnu, fun _ => rfl⟩
    · rw [if_neg hu]
      exact ⟨rfl, rfl, fun _ => rfl, fun hu2 => absurd hu2 hu⟩
  · rw [if_neg hf] at h
    cases h

/-- Witness for `c10_settle_changes_only_callers_flag` at a concrete
expense. -/
theorem c10_settle_changes_only_callers_flag_witness :
    (⟨"l", 10, "a", "g", "Food", 0,
        [⟨"a", 5, true⟩, ⟨"b", 5, true⟩]⟩ : Expense).amount =
      (⟨"l", 10, "a", "g", "Food", 0,
        [⟨"a", 5, true⟩, ⟨"b", 5, false⟩]⟩ : Expense).amount ∧
    (⟨"l", 10, "a", "g", "Food", 0,
        [⟨"a", 5, true⟩, ⟨"b", 5, true⟩]⟩ : Expense).paidBy =
      (⟨"l", 10, "a", "g", "Food", 0,
        [⟨"a", 5, true⟩, ⟨"b", 5, false⟩]⟩ : Expense).paidBy :=
  have h := c10_settle_changes_only_callers_flag "b"
    ⟨"l", 10, "a", "g", "Food", 0, [⟨"a", 5, true⟩, ⟨"b", 5, false⟩]⟩
    ⟨"l", 10, "a", "g", "Food", 0, [⟨"a", 5, true⟩, ⟨"b", 5, true⟩]⟩
    (by rfl)
  ⟨h.2.1, h.2.2.1⟩

/-- Persistence footprint of an expense creation: whether the Expense
document, the group's `totalExpenses` (with its `balances` in the
transactional route) and the member balance documents have been
written. -/
structure PersistState where
  expenseSaved : Bool
  totalsUpdated : Bool
  balancesUpdated : Bool
deriving DecidableEq, Repr

/-- The three writes an expense creation performs. -/
inductive WriteOp where
  | saveExpense
  | updateTotals
  | updateBalances
deriving DecidableEq, Repr

def applyWrite (s : PersistState) : WriteOp → PersistState
  | .saveExpense => { s with expenseSaved := true }
  | .updateTotals => { s with totalsUpdated := true }
  | .updateBalances => { s with balancesUpdated := true }

/-- Run a sequence of atomic blocks: writes inside one block take effect
together (a MongoDB session transaction commits or rolls back as a
unit). -/
def runBlocks (p : List (List WriteOp)) (s : PersistState) : PersistState :=
  p.foldl (fun st blk => blk.foldl applyWrite st) s

/-- States observable when execution may stop between atomic blocks: the
prefix of committed blocks, with any interrupted block rolled back. -/
def reachableStop (p : List (List WriteOp)) (s0 s : PersistState) : Prop :=
  ∃ k, k ≤ p.length ∧ runBlocks (p.take k) s0 = s

/-- Route `POST /groups/:groupId/expenses` (routes/dashboard.js lines 529–536)
and `POST /group/:groupId` (routes/dashboard/expenses.js lines 221–226):
`expense.save()` then a separate `Group.findByIdAndUpdate` increment —
two independent writes, no session. -/
def dashboardCreateProgram : List (List WriteOp) :=
  [[.saveExpense], [.updateTotals]]

/-- Route `POST /` in routes/expenses.js (lines 16–206): `expense.save`, the
group totals/balances save and the user balance saves all run under one
`mongoose.startSession()` transaction, committed together. -/
def transactionalCreateProgram : List (List WriteOp) :=
  [[.saveExpense, .updateTotals, .updateBalances]]

/-- No writes performed yet. -/
def initPersist : PersistState := ⟨false, false, false⟩

/-- C8: the dashboard expense-creation route is not atomic: stopping
after its first write leaves a reachable state in which the Expense
exists but the group's `totalExpenses` was never updated. -/
theorem c8_dashboard_create_not_atomic_counterexample :
    reachableStop dashboardCreateProgram initPersist ⟨true, false, false⟩ ∧
    (⟨true, false, false⟩ : PersistState).expenseSaved = true ∧
    (⟨true, false, false⟩ : PersistState).totalsUpdated = false :=
  ⟨⟨1, by decide, by rfl⟩, rfl, rfl⟩

/-- C8 (amended): only the routes/expenses.js creation is atomic — every
state reachable from its single-transaction program has all three writes
either applied or not applied together — while the dashboard creation
performs `expense.save` and the `totalExpenses` increment as two separate
writes, so the partial state (expense saved, totals not updated) is
reachable. -/
theorem c8_only_transactional_route_atomic :
    (∀ s : PersistState, reachableStop transactionalCreateProgram
        initPersist s →
      s.expenseSaved = s.totalsUpdated ∧
        s.totalsUpdated = s.balancesUpdated) ∧
    reachableStop dashboardCreateProgram initPersist ⟨true, false, false⟩ := by
  constructor
  · rintro s ⟨k, hk, hrun⟩
    have hk1 : k ≤ 1 := by simpa [transactionalCreateProgram] using hk
    interval_cases k
    · rw [← hrun]
      exact ⟨rfl, rfl⟩
    · rw [← hrun]
      exact ⟨rfl, rfl⟩
  · exact ⟨1, by decide, by rfl⟩

/-- Witness for `c8_only_transactional_route_atomic` at the concrete
empty prefix. -/
theorem c8_only_transactional_route_atomic_witness :
    initPersist.expenseSaved = initPersist.totalsUpdated ∧
      initPersist.totalsUpdated = initPersist.balancesUpdated :=
  c8_only_transactional_route_atomic.1 initPersist ⟨0, by decide, by rfl⟩
